import Mathlib

/-!
# Shallow embedding of the CHIP-8 virtual machine

Embedding of the emulator core from `src/chip8.rs` and
`src/chip8/display.rs` (crate `chip8-emu-rust`).

Modelling conventions:
* machine integers (`u8`, `u16`) become `Nat`, reduced modulo `2^8` /
  `2^16` exactly where the Rust code can wrap;
* byte arrays (`ram: [u8; 4096]`, `reg_v: [u8; 16]`, the display
  buffer, the keyboard) become total functions out of `Nat`,
  mutated pointwise with `update`;
* Rust panics — `unwrap` on an empty stack pop, out-of-bounds array or
  slice indexing, an unimplemented opcode — abort execution, so the
  fallible operations return `Option` with `none` as the panic branch;
* the random byte drawn by opcode `Cxkk` (`gen_range(0..256)`) is an
  explicit `rnd` parameter of `execute`, reduced modulo 256.
-/

/-- Pointwise write `a[i] = v` on an array modelled as a function. -/
def update {α : Type} (f : Nat → α) (i : Nat) (v : α) : Nat → α :=
  fun j => if j = i then v else f j

/-! ## The display (`src/chip8/display.rs`)

`RES_WIDTH = 64`, `RES_HEIGHT = 32` and `RES_WIDTH * RES_HEIGHT = 2048`
are inlined as numerals.  The buffer `[bool; 2048]` is a function
`Nat → Bool`; `Display::draw` threads the pair (buffer, `unset` flag)
through the two nested loops. -/

/-- `self.buffer[pixel_idx] = !self.buffer[pixel_idx]`. -/
def togglePixel (buf : Nat → Bool) (idx : Nat) : Nat → Bool :=
  update buf idx (!buf idx)

/-- `pixel_idx = (y_wrapped + row) * RES_WIDTH + x_wrapped + col`. -/
def pixelIdx (xw yw row col : Nat) : Nat := (yw + row) * 64 + xw + col

/-- `pixel_value = byte & (0b1000_0000 >> col)`. -/
def pixelVal (byte col : Nat) : Nat := byte &&& (128 >>> col)

/-- Body of the inner `for col in 0..8` loop of `Display::draw`:
skip the pixel when its flat index reaches past the buffer, otherwise
toggle it (recording a collision) when the sprite bit is set. -/
def drawStep (xw yw row byte : Nat) (st : (Nat → Bool) × Bool) (col : Nat) :
    (Nat → Bool) × Bool :=
  if 2048 ≤ pixelIdx xw yw row col then st
  else if 0 < pixelVal byte col then
    (togglePixel st.1 (pixelIdx xw yw row col),
     st.2 || st.1 (pixelIdx xw yw row col))
  else st

/-- The inner loop of `Display::draw` over the 8 bits of one sprite byte. -/
def drawRow (xw yw row byte : Nat) (st : (Nat → Bool) × Bool) :
    (Nat → Bool) × Bool :=
  (List.range 8).foldl (drawStep xw yw row byte) st

/-- The outer `for (row, byte) in sprite.iter().enumerate()` loop,
with the running row index made explicit. -/
def drawRows (xw yw : Nat) (row : Nat) (st : (Nat → Bool) × Bool) :
    List Nat → (Nat → Bool) × Bool
  | [] => st
  | byte :: rest => drawRows xw yw (row + 1) (drawRow xw yw row byte st) rest

/-- `Display::draw(sprite, x, y)`: wraps the anchor once
(`x % RES_WIDTH`, `y % RES_HEIGHT`), then runs the nested loops.
Returns the new buffer and the `unset` collision flag. -/
def Display.draw (buf : Nat → Bool) (sprite : List Nat) (x y : Nat) :
    (Nat → Bool) × Bool :=
  drawRows (x % 64) (y % 32) 0 (buf, false) sprite

/-! ## The virtual machine state (`src/chip8.rs`) -/

/-- Modelled from the spec: the font glyph constants live in
`src/chip8/sprites.rs`, which is absent from the sources.  The spec
places glyph `d` in low memory at a deterministic base offset plus
`d × 5` (contiguous 5-byte glyphs), and the repository's own test
`opcode_fx29_set_sprite_addr` (executing `0xF329` yields `I = 0xF`)
fixes the base address at 0 and the glyph length at 5. -/
def FONT_SPRITES_MEM_ADDR : Nat := 0

/-- Modelled from the spec: length in bytes of one font glyph
(see `FONT_SPRITES_MEM_ADDR`). -/
def FONT_SPRITE_LEN : Nat := 5

/-- The `Chip8` struct.  `display` is the embedded `Display`'s buffer. -/
structure Chip8 where
  display : Nat → Bool
  ram : Nat → Nat
  pc : Nat
  stack : List Nat
  reg_i : Nat
  reg_v : Nat → Nat
  delay_timer : Nat
  sound_timer : Nat
  keyboard : Nat → Bool
  paused : Bool
  store_keypress_in_reg : Nat

/-- First nibble of the opcode: `opcode >> 12`. -/
def digit0 (op : Nat) : Nat := op >>> 12

/-- Second nibble: `(opcode & 0x0F00) >> 8`. -/
def digit1 (op : Nat) : Nat := (op &&& 0x0F00) >>> 8

/-- Third nibble: `(opcode & 0x00F0) >> 4`. -/
def digit2 (op : Nat) : Nat := (op &&& 0x00F0) >>> 4

/-- Fourth nibble: `opcode & 0x000F`. -/
def digit3 (op : Nat) : Nat := op &&& 0x000F

/-- The `for i in 0..x+1` loop of opcode `Fx55`: write `V0..Vx` to
`ram[I..I+x]`.  `remaining` counts iterations left; the `u16` address
`reg_i + i` wraps modulo `2^16` and an index past `RAM_SIZE = 4096`
panics (`none`). -/
def dumpAux (regv : Nat → Nat) (regI : Nat) :
    Nat → Nat → (Nat → Nat) → Option (Nat → Nat)
  | _, 0, ram => some ram
  | i, remaining + 1, ram =>
    if 4096 ≤ (regI + i) % 65536 then none
    else dumpAux regv regI (i + 1) remaining
      (update ram ((regI + i) % 65536) (regv i))

/-- The `for i in 0..x+1` loop of opcode `Fx65`: read `V0..Vx` from
`ram[I..I+x]` (same address arithmetic as `dumpAux`). -/
def loadAux (ram : Nat → Nat) (regI : Nat) :
    Nat → Nat → (Nat → Nat) → Option (Nat → Nat)
  | _, 0, regv => some regv
  | i, remaining + 1, regv =>
    if 4096 ≤ (regI + i) % 65536 then none
    else loadAux ram regI (i + 1) remaining
      (update regv i (ram ((regI + i) % 65536)))

/-- The body of `Chip8::execute`: the Rust `match digits` on the four
opcode nibbles, with the nibbles `d0 d1 d2 d3` passed explicitly (the
caller `execute` computes them from `op` exactly as the source does).
`rnd` feeds the `Cxkk` random byte. -/
def executeDigits (s : Chip8) (op rnd : Nat) : Nat → Nat → Nat → Nat → Option Chip8
  -- 00E0 - Clear the display
  | 0x0, 0x0, 0xE, 0x0 =>
    some { s with display := fun _ => false }
  -- 00EE - Return from a subroutine; `Vec::pop().unwrap()` panics when empty
  | 0x0, 0x0, 0xE, 0xE =>
    match s.stack.getLast? with
    | none => none
    | some addr => some { s with pc := addr, stack := s.stack.dropLast }
  -- 1nnn - Jump to location nnn
  | 0x1, _, _, _ =>
    some { s with pc := op &&& 0x0FFF }
  -- 2nnn - Call subroutine at nnn
  | 0x2, _, _, _ =>
    some { s with stack := s.stack ++ [s.pc], pc := op &&& 0x0FFF }
  -- 3xkk - Skip next instruction if Vx = kk
  | 0x3, x, _, _ =>
    if s.reg_v x = op &&& 0x00FF then some { s with pc := (s.pc + 2) % 65536 }
    else some s
  -- 4xkk - Skip next instruction if Vx != kk
  | 0x4, x, _, _ =>
    if s.reg_v x ≠ op &&& 0x00FF then some { s with pc := (s.pc + 2) % 65536 }
    else some s
  -- 5xy0 - Skip next instruction if Vx = Vy
  | 0x5, x, y, 0x0 =>
    if s.reg_v x = s.reg_v y then some { s with pc := (s.pc + 2) % 65536 }
    else some s
  -- 6xkk - Set Vx = kk
  | 0x6, x, _, _ =>
    some { s with reg_v := update s.reg_v x (op &&& 0x00FF) }
  -- 7xkk - Set Vx = Vx + kk (wrapping_add)
  | 0x7, x, _, _ =>
    some { s with reg_v := (update s.reg_v x ((s.reg_v x + (op &&& 0x00FF)) % 256)) }
  -- 8xy0 - Set Vx = Vy
  | 0x8, x, y, 0x0 =>
    some { s with reg_v := update s.reg_v x (s.reg_v y) }
  -- 8xy1 - Set Vx = Vx OR Vy
  | 0x8, x, y, 0x1 =>
    some { s with reg_v := (update s.reg_v x (s.reg_v x ||| s.reg_v y)) }
  -- 8xy2 - Set Vx = Vx AND Vy
  | 0x8, x, y, 0x2 =>
    some { s with reg_v := (update s.reg_v x (s.reg_v x &&& s.reg_v y)) }
  -- 8xy3 - Set Vx = Vx XOR Vy
  | 0x8, x, y, 0x3 =>
    some { s with reg_v := (update s.reg_v x (s.reg_v x ^^^ s.reg_v y)) }
  -- 8xy4 - Set Vx = Vx + Vy, set VF = carry (overflowing_add on u8)
  | 0x8, x, y, 0x4 =>
    some { s with reg_v :=
      (update (update s.reg_v x ((s.reg_v x + s.reg_v y) % 256))
        0xF (if 256 ≤ s.reg_v x + s.reg_v y then 1 else 0)) }
  -- 8xy5 - Set Vx = Vx - Vy, set VF = NOT borrow (overflowing_sub on u8)
  | 0x8, x, y, 0x5 =>
    some { s with reg_v :=
      (update (update s.reg_v x ((s.reg_v x + 256 - s.reg_v y) % 256))
        0xF (if s.reg_v x < s.reg_v y then 0 else 1)) }
  -- 8xy6 - Set Vx = Vx SHR 1, VF = pre-shift LSB
  | 0x8, x, _, 0x6 =>
    some { s with reg_v :=
      (update (update s.reg_v x (s.reg_v x >>> 1)) 0xF (s.reg_v x &&& 1)) }
  -- 8xy7 - Set Vx = Vy - Vx, set VF = NOT borrow
  | 0x8, x, y, 0x7 =>
    some { s with reg_v :=
      (update (update s.reg_v x ((s.reg_v y + 256 - s.reg_v x) % 256))
        0xF (if s.reg_v y < s.reg_v x then 0 else 1)) }
  -- 8xyE - Set Vx = Vx SHL 1, VF = pre-shift MSB
  | 0x8, x, _, 0xE =>
    some { s with reg_v :=
      (update (update s.reg_v x ((s.reg_v x <<< 1) % 256))
        0xF ((s.reg_v x &&& 128) >>> 7)) }
  -- 9xy0 - Skip next instruction if Vx != Vy
  | 0x9, x, y, 0x0 =>
    if s.reg_v x ≠ s.reg_v y then some { s with pc := (s.pc + 2) % 65536 }
    else some s
  -- Annn - Set I = nnn
  | 0xA, _, _, _ =>
    some { s with reg_i := op &&& 0x0FFF }
  -- Bnnn - sets I (not PC) to nnn + V0
  | 0xB, _, _, _ =>
    some { s with reg_i := ((op &&& 0x0FFF) + s.reg_v 0x0) % 65536 }
  -- Cxnn - Set Vx = random byte AND nn
  | 0xC, x, _, _ =>
    some { s with reg_v := (update s.reg_v x ((rnd % 256) &&& (op &&& 0x00FF))) }
  -- Dxyn - Draw n-byte sprite at memory I at (Vx, Vy), VF = collision;
  -- the slice `ram[I..I+n]` panics when its end exceeds RAM_SIZE
  | 0xD, x, y, n =>
    if 4096 < s.reg_i + n then none
    else
      let sprite := (List.range n).map (fun k => s.ram (s.reg_i + k))
      let res := Display.draw s.display sprite (s.reg_v x) (s.reg_v y)
      some { s with display := res.1,
                    reg_v := (update s.reg_v 0xF (if res.2 then 1 else 0)) }
  -- Ex9E - Skip next instruction if key Vx is pressed;
  -- `keyboard[vx]` panics when Vx > 15
  | 0xE, x, 0x9, 0xE =>
    if 16 ≤ s.reg_v x then none
    else if s.keyboard (s.reg_v x) then some { s with pc := (s.pc + 2) % 65536 }
    else some s
  -- ExA1 - Skip next instruction if key Vx is not pressed
  | 0xE, x, 0xA, 0x1 =>
    if 16 ≤ s.reg_v x then none
    else if s.keyboard (s.reg_v x) then some s
    else some { s with pc := (s.pc + 2) % 65536 }
  -- Fx07 - Set Vx = delay timer value
  | 0xF, x, 0x0, 0x7 =>
    some { s with reg_v := update s.reg_v x s.delay_timer }
  -- Fx0A - Wait for a key press (pause_until_keypress)
  | 0xF, x, 0x0, 0xA =>
    some { s with paused := true, store_keypress_in_reg := x }
  -- Fx15 - Set delay timer = Vx
  | 0xF, x, 0x1, 0x5 =>
    some { s with delay_timer := s.reg_v x }
  -- Fx18 - Set sound timer = Vx
  | 0xF, x, 0x1, 0x8 =>
    some { s with sound_timer := s.reg_v x }
  -- Fx1E - I = I + Vx (u16 add)
  | 0xF, x, 0x1, 0xE =>
    some { s with reg_i := (s.reg_i + s.reg_v x) % 65536 }
  -- Fx29 - I = FONT_SPRITES_MEM_ADDR + FONT_SPRITE_LEN * x
  -- (note: the Rust code uses the register index x, not the value Vx)
  | 0xF, x, 0x2, 0x9 =>
    some { s with reg_i := FONT_SPRITES_MEM_ADDR + FONT_SPRITE_LEN * x }
  -- Fx33 - Store BCD of Vx at I, I+1, I+2; out-of-range writes panic
  | 0xF, x, 0x3, 0x3 =>
    if 4096 ≤ s.reg_i ∨ 4096 ≤ (s.reg_i + 1) % 65536 ∨
        4096 ≤ (s.reg_i + 2) % 65536 then none
    else
      some { s with ram :=
        (update (update (update s.ram s.reg_i (s.reg_v x / 100))
            ((s.reg_i + 1) % 65536) (s.reg_v x % 100 / 10))
          ((s.reg_i + 2) % 65536) (s.reg_v x % 10)) }
  -- Fx55 - Store registers V0 through Vx in memory starting at I
  | 0xF, x, 0x5, 0x5 =>
    match dumpAux s.reg_v s.reg_i 0 (x + 1) s.ram with
    | none => none
    | some ram2 => some { s with ram := ram2 }
  -- Fx65 - Read registers V0 through Vx from memory starting at I
  | 0xF, x, 0x6, 0x5 =>
    match loadAux s.ram s.reg_i 0 (x + 1) s.reg_v with
    | none => none
    | some regv2 => some { s with reg_v := regv2 }
  -- anything else: panic!("unimplemented")
  | _, _, _, _ => none

/-- `Chip8::execute(opcode)`: compute the four nibbles exactly as the
source does, then dispatch on them. -/
def execute (s : Chip8) (op rnd : Nat) : Option Chip8 :=
  executeDigits s op rnd (digit0 op) (digit1 op) (digit2 op) (digit3 op)

/-- `Chip8::key_pressed(key, state)`.  The paused branch writes the key
value into the target register and unpauses *before* `keyboard[key]`
is indexed; an out-of-range key panics (`none`). -/
def key_pressed (s : Chip8) (key : Nat) (state : Bool) : Option Chip8 :=
  let s1 := if s.paused then
      { s with reg_v := (update s.reg_v s.store_keypress_in_reg key),
               paused := false }
    else s
  if 16 ≤ key then none
  else some { s1 with keyboard := update s1.keyboard key state }

/-- The element-by-element copy performed by
`self.ram[start..start+len].copy_from_slice(data)`. -/
def writeBytes (ram : Nat → Nat) (addr : Nat) : List Nat → (Nat → Nat)
  | [] => ram
  | b :: rest => writeBytes (update ram addr b) (addr + 1) rest

/-- `Chip8::load(data)`: copies `data` to `ram[0x200..0x200+len]` and
sets `pc = 0x200`.  The slice index panics — before any write — when
`0x200 + len` exceeds `RAM_SIZE = 4096`. -/
def load (s : Chip8) (data : List Nat) : Option Chip8 :=
  if 4096 < 0x200 + data.length then none
  else some { s with ram := writeBytes s.ram 0x200 data, pc := 0x200 }

/-- A freshly zeroed state (the `Chip8::new` fields before the font
copy), used to build concrete test states. -/
def zeroState : Chip8 where
  display := fun _ => false
  ram := fun _ => 0
  pc := 0
  stack := []
  reg_i := 0
  reg_v := fun _ => 0
  delay_timer := 0
  sound_timer := 0
  keyboard := fun _ => false
  paused := false
  store_keypress_in_reg := 0

/-- The state of the repository's `Fx55` unit test: `V0..V2 =
{0x11, 0x22, 0x33}`, `I = 0x22A`. -/
def c7State : Chip8 :=
  { zeroState with
    reg_i := 0x22A
    reg_v := update (update (update zeroState.reg_v 0 0x11) 1 0x22) 2 0x33 }

/-! ## Toggle-list view of `Display::draw`

`Display::draw` only ever toggles pixels; the definitions below name
the list of flat indices one call toggles (its *mask*), and the
generic operation of toggling a list of indices while accumulating the
collision flag exactly as the loop body does.  The theorems later
prove `Display.draw` equal to `applyTF` over `drawMask`. -/

/-- The index toggled by loop iteration `col` of sprite row `row`, if
any: dropped when the flat index runs past the buffer or the sprite
bit is clear. -/
def rowMaskStep (xw yw row byte col : Nat) : Option Nat :=
  if 2048 ≤ pixelIdx xw yw row col then none
  else if 0 < pixelVal byte col then some (pixelIdx xw yw row col)
  else none

/-- All indices toggled by one sprite row. -/
def rowMask (xw yw row byte : Nat) : List Nat :=
  (List.range 8).filterMap (rowMaskStep xw yw row byte)

/-- All indices toggled from row `row` on. -/
def maskFrom (xw yw : Nat) (row : Nat) : List Nat → List Nat
  | [] => []
  | byte :: rest => rowMask xw yw row byte ++ maskFrom xw yw (row + 1) rest

/-- All indices one `Display::draw` call toggles. -/
def drawMask (sprite : List Nat) (x y : Nat) : List Nat :=
  maskFrom (x % 64) (y % 32) 0 sprite

/-- Toggle the indices of `l` in order, reading the collision flag from
the buffer state current at each toggle — the loop body of
`Display::draw` restricted to the indices it actually touches. -/
def applyTF (st : (Nat → Bool) × Bool) : List Nat → (Nat → Bool) × Bool
  | [] => st
  | i :: l => applyTF (togglePixel st.1 i, st.2 || st.1 i) l

/-! ## Pointwise update lemmas -/

theorem update_same {α : Type} (f : Nat → α) (i : Nat) (v : α) :
    update f i v i = v := by
  simp [update]

theorem update_other {α : Type} (f : Nat → α) (i : Nat) (v : α) (j : Nat)
    (h : j ≠ i) : update f i v j = f j := by
  simp [update, h]

/-! ## General lemmas about the dispatcher -/

/-- The `Cxkk` branch is the only one whose result mentions the random
byte: for every other digit tuple the dispatcher ignores `rnd`. -/
theorem executeDigits_rand (s : Chip8) (op r1 r2 d0 d1 d2 d3 : Nat)
    (h : d0 ≠ 0xC) :
    executeDigits s op r1 d0 d1 d2 d3 = executeDigits s op r2 d0 d1 d2 d3 := by
  rcases d0 with _|_|_|_|_|_|_|_|_|_|_|_|_|_|_|_|d0 <;>
    first
    | rfl
    | (exfalso; omega)
    | (rcases d3 with _|_|_|_|_|_|_|_|_|_|_|_|_|_|_|d3 <;> rfl)
    | (rcases d2 with _|_|_|_|_|_|_|_|_|_|_|_|_|_|_|d2 <;>
        first
        | rfl
        | (rcases d3 with _|_|_|_|_|_|_|_|_|_|_|_|_|_|_|d3 <;> rfl))
    | (rcases d1 with _|d1 <;>
        first
        | rfl
        | (rcases d2 with _|_|_|_|_|_|_|_|_|_|_|_|_|_|_|d2 <;>
            first
            | rfl
            | (rcases d3 with _|_|_|_|_|_|_|_|_|_|_|_|_|_|_|d3 <;> rfl)))

/-! ## Claim theorems -/

/-- C9: for every VM state and every opcode whose top nibble is not
`0xC`, `execute` is deterministic: two executions of the same opcode
from identical states (with possibly different random inputs) produce
identical results. -/
theorem C9_execute_deterministic (s : Chip8) (op r1 r2 : Nat)
    (h : digit0 op ≠ 0xC) :
    execute s op r1 = execute s op r2 := by
  unfold execute
  exact executeDigits_rand s op r1 r2 (digit0 op) (digit1 op) (digit2 op)
    (digit3 op) h

/-- Witness for `C9_execute_deterministic` at opcode `0x1ABC` and random
inputs 0 and 99. -/
theorem C9_witness : execute zeroState 0x1ABC 0 = execute zeroState 0x1ABC 99 :=
  C9_execute_deterministic zeroState 0x1ABC 0 99 (by decide)

/-- C4: executing `00EE` with a non-empty call stack sets `pc` to the
most recently pushed return address and removes exactly that entry,
leaving the rest of the stack and every other field unchanged;
executing `00EE` with an empty stack is the fatal error branch
(`none`), never a silent no-op. -/
theorem C4_ret_pop (s : Chip8) (r : Nat) :
    (∀ rest a, s.stack = rest ++ [a] →
      execute s 0x00EE r = some { s with pc := a, stack := rest }) ∧
    (s.stack = [] → execute s 0x00EE r = none) := by
  have hbr : execute s 0x00EE r =
      match s.stack.getLast? with
      | none => none
      | some addr => some { s with pc := addr, stack := s.stack.dropLast } := rfl
  constructor
  · intro rest a hst
    rw [hbr, hst, List.getLast?_concat, List.dropLast_concat]
  · intro hst
    rw [hbr, hst]
    rfl

/-- Witness for `C4_ret_pop`: a stack `[0x300, 0xDD3]` returns to
`0xDD3` leaving `[0x300]`, and the empty stack aborts. -/
theorem C4_witness :
    execute { zeroState with stack := [0x300, 0xDD3] } 0x00EE 0 =
      some { zeroState with pc := 0xDD3, stack := [0x300] } ∧
    execute zeroState 0x00EE 0 = none :=
  ⟨(C4_ret_pop { zeroState with stack := [0x300, 0xDD3] } 0).1 [0x300] 0xDD3 rfl,
   (C4_ret_pop zeroState 0).2 rfl⟩

/-- C5: executing `8xy4` adds `Vy` into `Vx` modulo 256 and stores the
carry (1 when the true sum reaches 256, else 0) into `VF`; `VF`
receives the carry even when `x = 0xF`. -/
theorem C5_add_carry (s : Chip8) (op r : Nat)
    (h0 : digit0 op = 0x8) (h3 : digit3 op = 0x4)
    (ha : s.reg_v (digit1 op) < 256) (hb : s.reg_v (digit2 op) < 256) :
    ∃ s2, execute s op r = some s2 ∧
      s2.reg_v 0xF =
        (if 256 ≤ s.reg_v (digit1 op) + s.reg_v (digit2 op) then 1 else 0) ∧
      (digit1 op ≠ 0xF →
        s2.reg_v (digit1 op) =
          (s.reg_v (digit1 op) + s.reg_v (digit2 op)) % 256) := by
  have hstep : execute s op r = some { s with reg_v :=
      (update (update s.reg_v (digit1 op)
          ((s.reg_v (digit1 op) + s.reg_v (digit2 op)) % 256))
        0xF (if 256 ≤ s.reg_v (digit1 op) + s.reg_v (digit2 op)
             then 1 else 0)) } := by
    unfold execute
    rw [h0, h3]
    rfl
  refine ⟨_, hstep, ?_, ?_⟩
  · simp [update]
  · intro hx
    simp [update, hx]

/-- Witness for `C5_add_carry`: `V3 = 0x4A`, `V9 = 0xFE`, opcode
`0x8394` yields `V3 = 0x48` with carry `VF = 1` (the repository's own
test case). -/
theorem C5_witness :
    ∃ s2, execute { zeroState with
        reg_v := update (update zeroState.reg_v 3 0x4A) 9 0xFE } 0x8394 0 =
      some s2 ∧ s2.reg_v 0xF = 1 ∧ s2.reg_v 3 = 0x48 := by
  obtain ⟨s2, h1, h2, h3⟩ := C5_add_carry
    { zeroState with reg_v := update (update zeroState.reg_v 3 0x4A) 9 0xFE }
    0x8394 0 (by decide) (by decide) (by decide) (by decide)
  refine ⟨s2, h1, ?_, ?_⟩
  · rw [h2]
    decide
  · have h3x := h3 (by decide)
    rw [(by decide : digit1 0x8394 = 3)] at h3x
    rw [h3x]
    decide

/-- C1 (code evaluation at the failing input): with `V3 = 7`, opcode
`0xF329` sets `I` to `FONT_SPRITE_LEN * 3 = 15` — five times the
register index `x = 3` — and not to the glyph address of the value
`Vx = 7`, which would be `FONT_SPRITES_MEM_ADDR + 5 * 7 = 35`. -/
theorem C1_fx29_uses_register_index :
    ({ zeroState with reg_v := update zeroState.reg_v 3 7 } : Chip8).reg_v 3
        = 7 ∧
    ∃ s2, execute { zeroState with reg_v := update zeroState.reg_v 3 7 }
        0xF329 0 = some s2 ∧
      s2.reg_i = 15 ∧
      s2.reg_i ≠ FONT_SPRITES_MEM_ADDR + FONT_SPRITE_LEN * 7 :=
  ⟨rfl, _, rfl, rfl, by decide⟩

/-- C2 (code evaluation at the failing input): while waiting-for-key
with target register 0, a key-state update with `pressed = false` (a
release of key 5) still writes 5 into `V0` and clears the waiting
state; `Chip8::key_pressed` never consults `state` in its paused
branch. -/
theorem C2_release_also_resumes :
    ∃ s2, key_pressed { zeroState with paused := true } 5 false = some s2 ∧
      s2.paused = false ∧ s2.reg_v 0 = 5 ∧ s2.keyboard 5 = false :=
  ⟨_, rfl, rfl, by decide, by decide⟩

/-! ## Lemmas about `writeBytes` and the claims on `load` -/

/-- Bytes outside the copied window `[addr, addr + len)` are untouched. -/
theorem writeBytes_frame (data : List Nat) :
    ∀ (ram : Nat → Nat) (addr j : Nat),
      j < addr ∨ addr + data.length ≤ j → writeBytes ram addr data j = ram j := by
  induction data with
  | nil => intro ram addr j _; rfl
  | cons b rest ih =>
    intro ram addr j hj
    rw [List.length_cons] at hj
    show writeBytes (update ram addr b) (addr + 1) rest j = ram j
    rw [ih _ (addr + 1) j (by omega)]
    exact update_other _ _ _ _ (by omega)

/-- Byte `i` of the copied window holds `data[i]` after the copy. -/
theorem writeBytes_get (data : List Nat) :
    ∀ (ram : Nat → Nat) (addr i : Nat) (hi : i < data.length),
      writeBytes ram addr data (addr + i) = data.get ⟨i, hi⟩ := by
  induction data with
  | nil => intro ram addr i hi; exact absurd hi (by simp)
  | cons b rest ih =>
    intro ram addr i hi
    show writeBytes (update ram addr b) (addr + 1) rest (addr + i) = _
    rcases i with _ | i
    · rw [writeBytes_frame rest _ (addr + 1) (addr + 0) (Or.inl (by omega))]
      show update ram addr b (addr + 0) = b
      rw [Nat.add_zero]
      exact update_same ..
    · rw [show addr + (i + 1) = (addr + 1) + i by omega,
        ih _ (addr + 1) i (by rw [List.length_cons] at hi; omega)]
      rfl

/-- C8: loading more than `4096 - 0x200 = 3584` bytes hits the error
branch (`none`) with no state mutated; loading at most 3584 bytes
copies them verbatim to `0x200..0x200+len` and sets `pc = 0x200`. -/
theorem C8_load_checked (s : Chip8) (data : List Nat) :
    (3584 < data.length → load s data = none) ∧
    (data.length ≤ 3584 →
      ∃ s2, load s data = some s2 ∧ s2.pc = 0x200 ∧
        ∀ i (hi : i < data.length),
          s2.ram (0x200 + i) = data.get ⟨i, hi⟩) := by
  constructor
  · intro h
    unfold load
    rw [if_pos (by omega)]
  · intro h
    refine ⟨{ s with ram := writeBytes s.ram 0x200 data, pc := 0x200 },
      ?_, rfl, ?_⟩
    · unfold load
      rw [if_neg (by omega)]
    · intro i hi
      exact writeBytes_get data s.ram 0x200 i hi

/-- Witness for `C8_load_checked`: a 3585-byte image is rejected; the
repository's four-byte test image lands verbatim at `0x200`. -/
theorem C8_witness :
    load zeroState (List.replicate 3585 0) = none ∧
    ∃ s2, load zeroState [0xA, 0x1, 0xF, 0x12] = some s2 ∧ s2.pc = 0x200 ∧
      ∀ i (hi : i < ([0xA, 0x1, 0xF, 0x12] : List Nat).length),
        s2.ram (0x200 + i) = ([0xA, 0x1, 0xF, 0x12] : List Nat).get ⟨i, hi⟩ :=
  ⟨(C8_load_checked zeroState (List.replicate 3585 0)).1
      (by rw [List.length_replicate]; norm_num),
   (C8_load_checked zeroState [0xA, 0x1, 0xF, 0x12]).2 (by norm_num)⟩

/-- C10: a successful `load` changes only `ram[0x200..0x200+len)` and
`pc`; memory outside that window (the font region included), the
registers, stack, timers, framebuffer, keyboard and pause state all
survive — loading is not a reset. -/
theorem C10_load_frame (s : Chip8) (data : List Nat) (s2 : Chip8)
    (h : load s data = some s2) :
    (∀ j, j < 0x200 ∨ 0x200 + data.length ≤ j → s2.ram j = s.ram j) ∧
    s2.pc = 0x200 ∧ s2.display = s.display ∧ s2.stack = s.stack ∧
    s2.reg_i = s.reg_i ∧ s2.reg_v = s.reg_v ∧
    s2.delay_timer = s.delay_timer ∧ s2.sound_timer = s.sound_timer ∧
    s2.keyboard = s.keyboard ∧ s2.paused = s.paused ∧
    s2.store_keypress_in_reg = s.store_keypress_in_reg := by
  unfold load at h
  split at h
  · exact Option.noConfusion h
  · injection h with h2
    subst h2
    refine ⟨?_, rfl, rfl, rfl, rfl, rfl, rfl, rfl, rfl, rfl, rfl⟩
    intro j hj
    exact writeBytes_frame data s.ram 0x200 j hj

/-- Witness for `C10_load_frame`: after loading the four-byte test
image, the font region byte `0x100` and the register file are intact. -/
theorem C10_witness :
    load zeroState [0xA, 0x1, 0xF, 0x12] =
      some { zeroState with
        ram := writeBytes zeroState.ram 0x200 [0xA, 0x1, 0xF, 0x12],
        pc := 0x200 } ∧
    ({ zeroState with
        ram := writeBytes zeroState.ram 0x200 [0xA, 0x1, 0xF, 0x12],
        pc := 0x200 } : Chip8).ram 0x100 = zeroState.ram 0x100 ∧
    ({ zeroState with
        ram := writeBytes zeroState.ram 0x200 [0xA, 0x1, 0xF, 0x12],
        pc := 0x200 } : Chip8).stack = zeroState.stack := by
  have h := C10_load_frame zeroState [0xA, 0x1, 0xF, 0x12]
    { zeroState with
        ram := writeBytes zeroState.ram 0x200 [0xA, 0x1, 0xF, 0x12],
        pc := 0x200 } rfl
  exact ⟨rfl, h.1 0x100 (Or.inl (by norm_num)), h.2.2.2.1⟩

/-! ## Lemmas about the `Fx55`/`Fx65` loops and claim C7 -/

/-- Running the `Fx55` loop with the whole window inside RAM succeeds,
writes `regv i .. regv (i+remaining-1)` at `I+i ..`, and leaves every
other byte alone. -/
theorem dumpAux_spec (regv : Nat → Nat) (I : Nat) :
    ∀ (remaining i : Nat) (ram : Nat → Nat), I + i + remaining ≤ 4096 →
      ∃ ram2, dumpAux regv I i remaining ram = some ram2 ∧
        (∀ k, k < remaining → ram2 (I + i + k) = regv (i + k)) ∧
        (∀ j, (∀ k, k < remaining → j ≠ I + i + k) → ram2 j = ram j) := by
  intro remaining
  induction remaining with
  | zero =>
    intro i ram _
    exact ⟨ram, rfl, fun k hk => absurd hk (by omega), fun j _ => rfl⟩
  | succ rem ih =>
    intro i ram h
    have hm : (I + i) % 65536 = I + i := Nat.mod_eq_of_lt (by omega)
    have hlt : ¬ 4096 ≤ (I + i) % 65536 := by rw [hm]; omega
    obtain ⟨ram2, hrun, hwin, hframe⟩ :=
      ih (i + 1) (update ram ((I + i) % 65536) (regv i)) (by omega)
    refine ⟨ram2, ?_, ?_, ?_⟩
    · show (if 4096 ≤ (I + i) % 65536 then none
        else dumpAux regv I (i + 1) rem
          (update ram ((I + i) % 65536) (regv i))) = some ram2
      rw [if_neg hlt]
      exact hrun
    · intro k hk
      rcases k with _ | k
      · have hfr := hframe (I + i) (by intro k' hk'; omega)
        have hv : ram2 (I + i) = regv i := by
          rw [hfr, hm]
          exact update_same ..
        simpa using hv
      · have hk2 := hwin k (by omega)
        rw [show I + i + (k + 1) = I + (i + 1) + k by omega,
          show i + (k + 1) = i + 1 + k by omega]
        exact hk2
    · intro j hj
      have h1 := hframe j (by
        intro k hk
        have := hj (k + 1) (by omega)
        omega)
      rw [h1, hm]
      exact update_other _ _ _ _ (by have := hj 0 (by omega); omega)

/-- Running the `Fx65` loop with the whole window inside RAM succeeds,
loads `ram (I+i) ..` into registers `i .. i+remaining-1`, and leaves
every other register alone. -/
theorem loadAux_spec (ram : Nat → Nat) (I : Nat) :
    ∀ (remaining i : Nat) (regv : Nat → Nat), I + i + remaining ≤ 4096 →
      ∃ regv2, loadAux ram I i remaining regv = some regv2 ∧
        (∀ k, k < remaining → regv2 (i + k) = ram (I + i + k)) ∧
        (∀ j, (∀ k, k < remaining → j ≠ i + k) → regv2 j = regv j) := by
  intro remaining
  induction remaining with
  | zero =>
    intro i regv _
    exact ⟨regv, rfl, fun k hk => absurd hk (by omega), fun j _ => rfl⟩
  | succ rem ih =>
    intro i regv h
    have hm : (I + i) % 65536 = I + i := Nat.mod_eq_of_lt (by omega)
    have hlt : ¬ 4096 ≤ (I + i) % 65536 := by rw [hm]; omega
    obtain ⟨regv2, hrun, hwin, hframe⟩ :=
      ih (i + 1) (update regv i (ram ((I + i) % 65536))) (by omega)
    refine ⟨regv2, ?_, ?_, ?_⟩
    · show (if 4096 ≤ (I + i) % 65536 then none
        else loadAux ram I (i + 1) rem
          (update regv i (ram ((I + i) % 65536)))) = some regv2
      rw [if_neg hlt]
      exact hrun
    · intro k hk
      rcases k with _ | k
      · have hfr := hframe i (by intro k' hk'; omega)
        have hv : regv2 i = ram (I + i) := by
          rw [hfr, hm]
          exact update_same ..
        simpa using hv
      · have hk2 := hwin k (by omega)
        rw [show I + i + (k + 1) = I + (i + 1) + k by omega,
          show i + (k + 1) = i + 1 + k by omega]
        exact hk2
    · intro j hj
      have h1 := hframe j (by
        intro k hk
        have := hj (k + 1) (by omega)
        omega)
      rw [h1]
      exact update_other _ _ _ _ (by have := hj 0 (by omega); omega)

/-- C7: with `I + x < 4096`, executing `Fx55` dumps `V0..Vx` to
`ram[I..I+x]` (exactly `x+1` bytes, the rest of RAM and `I` untouched);
overwriting the register file with arbitrary values `w` and executing
`Fx65` at the same `I` then restores `V0..Vx` to their original values,
leaving registers above `x` (and `I`) untouched. -/
theorem C7_dump_load_roundtrip (s : Chip8) (op1 op2 r1 r2 : Nat) (w : Nat → Nat)
    (h10 : digit0 op1 = 0xF) (h12 : digit2 op1 = 0x5) (h13 : digit3 op1 = 0x5)
    (h20 : digit0 op2 = 0xF) (h22 : digit2 op2 = 0x6) (h23 : digit3 op2 = 0x5)
    (hx : digit1 op2 = digit1 op1)
    (hbound : s.reg_i + digit1 op1 < 4096) :
    ∃ s1, execute s op1 r1 = some s1 ∧
      s1.reg_i = s.reg_i ∧
      (∀ i, i ≤ digit1 op1 → s1.ram (s.reg_i + i) = s.reg_v i) ∧
      (∀ j, j < s.reg_i ∨ s.reg_i + digit1 op1 < j → s1.ram j = s.ram j) ∧
      ∃ s3, execute { s1 with reg_v := w } op2 r2 = some s3 ∧
        s3.reg_i = s.reg_i ∧
        (∀ i, i ≤ digit1 op1 → s3.reg_v i = s.reg_v i) ∧
        (∀ j, digit1 op1 < j → s3.reg_v j = w j) := by
  obtain ⟨ram2, hrun, hwin, hframe⟩ :=
    dumpAux_spec s.reg_v s.reg_i (digit1 op1 + 1) 0 s.ram (by omega)
  have hstep1 : execute s op1 r1 = some { s with ram := ram2 } := by
    have hmatch : execute s op1 r1 =
        match dumpAux s.reg_v s.reg_i 0 (digit1 op1 + 1) s.ram with
        | none => none
        | some r => some { s with ram := r } := by
      unfold execute
      rw [h10, h12, h13]
      rfl
    rw [hmatch, hrun]
  obtain ⟨regv2, hrun2, hwin2, hframe2⟩ :=
    loadAux_spec ram2 s.reg_i (digit1 op1 + 1) 0 w (by omega)
  have hwin' : ∀ i, i ≤ digit1 op1 → ram2 (s.reg_i + i) = s.reg_v i := by
    intro i hi
    have := hwin i (by omega)
    simpa using this
  have hstep2 : execute { s with ram := ram2, reg_v := w } op2 r2 =
      some { s with ram := ram2, reg_v := regv2 } := by
    have hmatch : execute { s with ram := ram2, reg_v := w } op2 r2 =
        match loadAux ram2 s.reg_i 0 (digit1 op1 + 1) w with
        | none => none
        | some r => some { s with ram := ram2, reg_v := r } := by
      unfold execute
      rw [h20, h22, h23, hx]
      rfl
    rw [hmatch, hrun2]
  refine ⟨{ s with ram := ram2 }, hstep1, rfl, hwin', ?_, ?_⟩
  · intro j hj
    exact hframe j (by intro k hk; omega)
  · refine ⟨{ s with ram := ram2, reg_v := regv2 }, hstep2, rfl, ?_, ?_⟩
    · intro i hi
      have h1 := hwin2 i (by omega)
      have h2 : regv2 i = ram2 (s.reg_i + i) := by simpa using h1
      show regv2 i = s.reg_v i
      rw [h2]
      exact hwin' i hi
    · intro j hj
      exact hframe2 j (by intro k hk; omega)

/-- Witness for `C7_dump_load_roundtrip` on `c7State` with opcodes
`0xF255`/`0xF265` and the registers zeroed in between. -/
theorem C7_witness :
    ∃ s1, execute c7State 0xF255 0 = some s1 ∧
      s1.reg_i = c7State.reg_i ∧
      (∀ i, i ≤ 2 → s1.ram (c7State.reg_i + i) = c7State.reg_v i) ∧
      (∀ j, j < c7State.reg_i ∨ c7State.reg_i + 2 < j →
        s1.ram j = c7State.ram j) ∧
      ∃ s3, execute { s1 with reg_v := fun _ => 0 } 0xF265 0 = some s3 ∧
        s3.reg_i = c7State.reg_i ∧
        (∀ i, i ≤ 2 → s3.reg_v i = c7State.reg_v i) ∧
        (∀ j, 2 < j → s3.reg_v j = 0) :=
  C7_dump_load_roundtrip c7State 0xF255 0xF265 0 0 (fun _ => 0)
    (by decide) (by decide) (by decide) (by decide) (by decide) (by decide)
    (by decide) (by decide)

/-! ## The draw loops as toggle lists -/

/-- Characterization of the per-pixel step's mask entry. -/
theorem rowMaskStep_eq_some {xw yw row byte col v : Nat}
    (h : rowMaskStep xw yw row byte col = some v) :
    v = pixelIdx xw yw row col ∧ v < 2048 ∧ 0 < pixelVal byte col := by
  unfold rowMaskStep at h
  split_ifs at h with h1 h2
  all_goals first
    | exact Option.noConfusion h
    | (obtain rfl : pixelIdx xw yw row col = v := Option.some.inj h
       exact ⟨rfl, by omega, h2⟩)

/-- The inner column loop is `applyTF` over the row's mask. -/
theorem foldl_drawStep_eq_applyTF (xw yw row byte : Nat) :
    ∀ (cs : List Nat) (st : (Nat → Bool) × Bool),
      cs.foldl (drawStep xw yw row byte) st =
        applyTF st (cs.filterMap (rowMaskStep xw yw row byte)) := by
  intro cs
  induction cs with
  | nil => intro st; rfl
  | cons c cs ih =>
    intro st
    rw [List.foldl_cons]
    by_cases h1 : 2048 ≤ pixelIdx xw yw row c
    · have hs : drawStep xw yw row byte st c = st := by
        simp [drawStep, h1]
      have hm : rowMaskStep xw yw row byte c = none := by
        simp [rowMaskStep, h1]
      rw [hs, List.filterMap_cons_none hm]
      exact ih st
    · by_cases h2 : 0 < pixelVal byte c
      · have hs : drawStep xw yw row byte st c =
            (togglePixel st.1 (pixelIdx xw yw row c),
             st.2 || st.1 (pixelIdx xw yw row c)) := by
          simp [drawStep, h1, h2]
        have hm : rowMaskStep xw yw row byte c =
            some (pixelIdx xw yw row c) := by
          simp [rowMaskStep, h1, h2]
        rw [hs, List.filterMap_cons_some hm]
        exact ih _
      · have hs : drawStep xw yw row byte st c = st := by
          simp [drawStep, h1, h2]
        have hm : rowMaskStep xw yw row byte c = none := by
          simp [rowMaskStep, h1, h2]
        rw [hs, List.filterMap_cons_none hm]
        exact ih st

/-- One sprite row equals `applyTF` over its mask. -/
theorem drawRow_eq (xw yw row byte : Nat) (st : (Nat → Bool) × Bool) :
    drawRow xw yw row byte st = applyTF st (rowMask xw yw row byte) :=
  foldl_drawStep_eq_applyTF xw yw row byte (List.range 8) st

/-- `applyTF` splits over list append. -/
theorem applyTF_append (l1 : List Nat) :
    ∀ (l2 : List Nat) (st : (Nat → Bool) × Bool),
      applyTF st (l1 ++ l2) = applyTF (applyTF st l1) l2 := by
  induction l1 with
  | nil => intro l2 st; rfl
  | cons i l1 ih => intro l2 st; exact ih l2 _

/-- The outer row loop equals `applyTF` over the tail mask. -/
theorem drawRows_eq (xw yw : Nat) :
    ∀ (sprite : List Nat) (row : Nat) (st : (Nat → Bool) × Bool),
      drawRows xw yw row st sprite = applyTF st (maskFrom xw yw row sprite) := by
  intro sprite
  induction sprite with
  | nil => intro row st; rfl
  | cons byte rest ih =>
    intro row st
    show drawRows xw yw (row + 1) (drawRow xw yw row byte st) rest = _
    rw [ih (row + 1), drawRow_eq]
    show _ = applyTF st (rowMask xw yw row byte ++ maskFrom xw yw (row + 1) rest)
    rw [applyTF_append]

/-- `Display::draw` is `applyTF` over its mask. -/
theorem draw_eq_mask (buf : Nat → Bool) (sprite : List Nat) (x y : Nat) :
    Display.draw buf sprite x y =
      applyTF (buf, false) (drawMask sprite x y) :=
  drawRows_eq (x % 64) (y % 32) sprite 0 (buf, false)

/-- A pixel's final value flips with the parity of its occurrence count
in the toggle list (no distinctness needed). -/
theorem applyTF_fst (l : List Nat) :
    ∀ (buf : Nat → Bool) (flag : Bool) (j : Nat),
      (applyTF (buf, flag) l).1 j =
        if l.count j % 2 = 1 then !buf j else buf j := by
  induction l with
  | nil => intro buf flag j; simp [applyTF]
  | cons i l ih =>
    intro buf flag j
    show (applyTF (togglePixel buf i, flag || buf i) l).1 j = _
    rw [ih]
    by_cases hij : j = i
    · subst hij
      rw [List.count_cons_self]
      by_cases hp : l.count j % 2 = 1
      · have h2 : (l.count j + 1) % 2 = 0 := by omega
        simp [hp, h2, togglePixel, update]
      · have h2 : (l.count j + 1) % 2 = 1 := by omega
        simp [hp, h2, togglePixel, update]
    · rw [List.count_cons_of_ne hij]
      simp [togglePixel, update, hij]

/-- Over a duplicate-free toggle list, a pixel flips iff it is in the
list. -/
theorem applyTF_fst_nodup (l : List Nat) (buf : Nat → Bool) (flag : Bool)
    (j : Nat) (hnd : l.Nodup) :
    (applyTF (buf, flag) l).1 j = if j ∈ l then !buf j else buf j := by
  rw [applyTF_fst]
  by_cases hj : j ∈ l
  · simp [List.count_eq_one_of_mem hnd hj, hj]
  · simp [List.count_eq_zero_of_not_mem hj, hj]

/-- Two `Bool` predicates agreeing on a list give the same `any`. -/
theorem any_congr_mem {l : List Nat} {p q : Nat → Bool}
    (h : ∀ a, a ∈ l → p a = q a) : l.any p = l.any q := by
  induction l with
  | nil => rfl
  | cons a l ih =>
    rw [List.any_cons, List.any_cons, h a (by simp),
      ih fun b hb => h b (by simp [hb])]

/-- Over a duplicate-free toggle list the collision flag is: the
incoming flag, or some listed pixel already lit in the incoming
buffer. -/
theorem applyTF_snd_nodup (l : List Nat) :
    ∀ (buf : Nat → Bool) (flag : Bool), l.Nodup →
      (applyTF (buf, flag) l).2 = (flag || l.any fun i => buf i) := by
  induction l with
  | nil => intro buf flag _; simp [applyTF]
  | cons i l ih =>
    intro buf flag hnd
    show (applyTF (togglePixel buf i, flag || buf i) l).2 = _
    rw [ih _ _ hnd.of_cons]
    have hni : i ∉ l := (List.nodup_cons.mp hnd).1
    have hany : (l.any fun k => togglePixel buf i k) = l.any fun k => buf k := by
      refine any_congr_mem fun a ha => ?_
      have hne : a ≠ i := fun e => hni (e ▸ ha)
      simp [togglePixel, update, hne]
    rw [hany, List.any_cons, Bool.or_assoc]

/-- A row's mask never repeats an index. -/
theorem rowMask_nodup (xw yw row byte : Nat) : (rowMask xw yw row byte).Nodup := by
  refine (List.nodup_range 8).filterMap ?_
  intro a b c hca hcb
  rw [Option.mem_def] at hca hcb
  obtain ⟨h1, _, _⟩ := rowMaskStep_eq_some hca
  obtain ⟨h2, _, _⟩ := rowMaskStep_eq_some hcb
  unfold pixelIdx at h1 h2
  omega

/-- Membership in a row's mask. -/
theorem mem_rowMask {xw yw row byte e : Nat} :
    e ∈ rowMask xw yw row byte ↔
      ∃ col, col < 8 ∧ 0 < pixelVal byte col ∧
        e = pixelIdx xw yw row col ∧ e < 2048 := by
  unfold rowMask
  rw [List.mem_filterMap]
  constructor
  · rintro ⟨col, hcol, hsome⟩
    obtain ⟨h1, h2, h3⟩ := rowMaskStep_eq_some hsome
    exact ⟨col, List.mem_range.mp hcol, h3, h1, h2⟩
  · rintro ⟨col, hcol, hval, rfl, hlt⟩
    refine ⟨col, List.mem_range.mpr hcol, ?_⟩
    unfold rowMaskStep
    rw [if_neg (by omega), if_pos hval]

/-- Membership in the tail mask, row by row. -/
theorem mem_maskFrom (xw yw : Nat) :
    ∀ (sprite : List Nat) (row e : Nat),
      e ∈ maskFrom xw yw row sprite ↔
        ∃ k b, sprite.get? k = some b ∧ e ∈ rowMask xw yw (row + k) b := by
  intro sprite
  induction sprite with
  | nil =>
    intro row e
    show e ∈ ([] : List Nat) ↔ _
    simp
  | cons byte rest ih =>
    intro row e
    show e ∈ rowMask xw yw row byte ++ maskFrom xw yw (row + 1) rest ↔ _
    rw [List.mem_append, ih (row + 1) e]
    constructor
    · rintro (h | ⟨k, b, hk, hb⟩)
      · exact ⟨0, byte, rfl, by simpa using h⟩
      · refine ⟨k + 1, b, hk, ?_⟩
        rw [show row + (k + 1) = row + 1 + k by omega]
        exact hb
    · rintro ⟨k, b, hk, hb⟩
      rcases k with _ | k
      · left
        obtain rfl : byte = b := by simpa using hk
        simpa using hb
      · right
        refine ⟨k, b, by simpa using hk, ?_⟩
        rw [show row + 1 + k = row + (k + 1) by omega]
        exact hb

/-- Every index in the tail mask sits at or beyond its first row's
origin. -/
theorem maskFrom_lower (xw yw : Nat) :
    ∀ (sprite : List Nat) (row e : Nat),
      e ∈ maskFrom xw yw row sprite → (yw + row) * 64 + xw ≤ e := by
  intro sprite
  induction sprite with
  | nil => intro row e h; simp [maskFrom] at h
  | cons byte rest ih =>
    intro row e h
    rcases List.mem_append.mp h with h | h
    · obtain ⟨col, _, _, rfl, _⟩ := mem_rowMask.mp h
      unfold pixelIdx
      omega
    · have := ih (row + 1) e h
      omega

/-- The whole mask never repeats an index: two loop iterations of one
`Display::draw` call never hit the same pixel. -/
theorem maskFrom_nodup (xw yw : Nat) :
    ∀ (sprite : List Nat) (row : Nat), (maskFrom xw yw row sprite).Nodup := by
  intro sprite
  induction sprite with
  | nil => intro row; simp [maskFrom]
  | cons byte rest ih =>
    intro row
    show (rowMask xw yw row byte ++ maskFrom xw yw (row + 1) rest).Nodup
    rw [List.nodup_append]
    refine ⟨rowMask_nodup xw yw row byte, ih (row + 1), ?_⟩
    intro e he1 he2
    obtain ⟨col, hcol, _, rfl, _⟩ := mem_rowMask.mp he1
    have hlow := maskFrom_lower xw yw rest (row + 1) _ he2
    unfold pixelIdx at hlow
    omega

/-- Membership in the full mask of one `Display::draw` call: exactly
the sprite pixels whose bit is set, placed at the once-wrapped anchor
`(x % 64, y % 32)`, whose flat index stays inside the 2048-pixel
buffer. -/
theorem mem_drawMask {sprite : List Nat} {x y j : Nat} :
    j ∈ drawMask sprite x y ↔
      ∃ row b col, sprite.get? row = some b ∧ col < 8 ∧
        0 < pixelVal b col ∧ j = pixelIdx (x % 64) (y % 32) row col ∧
        j < 2048 := by
  unfold drawMask
  rw [mem_maskFrom]
  simp only [Nat.zero_add]
  constructor
  · rintro ⟨k, b, hk, hb⟩
    obtain ⟨col, hcol, hval, rfl, hlt⟩ := mem_rowMask.mp hb
    exact ⟨k, b, col, hk, hcol, hval, rfl, hlt⟩
  · rintro ⟨k, b, col, hk, hcol, hval, rfl, hlt⟩
    exact ⟨k, b, hk, mem_rowMask.mpr ⟨col, hcol, hval, rfl, hlt⟩⟩

/-- C6: drawing the same sprite twice at the same position restores
the framebuffer (each toggled pixel toggles exactly twice), and the
second call's collision flag is true whenever the first call turned at
least one pixel on. -/
theorem C6_draw_self_inverse (buf : Nat → Bool) (sprite : List Nat)
    (x y : Nat) :
    (Display.draw (Display.draw buf sprite x y).1 sprite x y).1 = buf ∧
    ((∃ j, buf j = false ∧ (Display.draw buf sprite x y).1 j = true) →
      (Display.draw (Display.draw buf sprite x y).1 sprite x y).2 = true) := by
  have hnd : (drawMask sprite x y).Nodup :=
    maskFrom_nodup (x % 64) (y % 32) sprite 0
  constructor
  · funext j
    rw [draw_eq_mask, draw_eq_mask, applyTF_fst, applyTF_fst]
    by_cases hp : (drawMask sprite x y).count j % 2 = 1 <;>
      simp [hp]
  · rintro ⟨j, hj0, hj1⟩
    rw [draw_eq_mask] at hj1
    rw [applyTF_fst_nodup _ _ _ _ hnd] at hj1
    have hjm : j ∈ drawMask sprite x y := by
      by_contra hnm
      rw [if_neg hnm, hj0] at hj1
      exact Bool.noConfusion hj1
    rw [draw_eq_mask, draw_eq_mask, applyTF_snd_nodup _ _ _ hnd]
    rw [Bool.false_or, List.any_eq_true]
    refine ⟨j, hjm, ?_⟩
    rw [applyTF_fst_nodup _ _ _ _ hnd, if_pos hjm, hj0]
    rfl

/-- Witness for `C6_draw_self_inverse`: the one-pixel sprite `[0x80]`
at the origin turns pixel 0 on, so the second identical draw reports a
collision and restores the all-off buffer. -/
theorem C6_witness :
    (Display.draw (Display.draw (fun _ => false) [0x80] 0 0).1
        [0x80] 0 0).1 = (fun _ => false) ∧
    (Display.draw (Display.draw (fun _ => false) [0x80] 0 0).1
        [0x80] 0 0).2 = true :=
  ⟨(C6_draw_self_inverse (fun _ => false) [0x80] 0 0).1,
   (C6_draw_self_inverse (fun _ => false) [0x80] 0 0).2
     ⟨0, rfl, by decide⟩⟩

/-- C3 counterexample: the single-row sprite `[0x01]` drawn at
`(63, 0)` anchors at wrapped position `(63, 0)`, grid row 0; its bit
sits at column 7, so its claimed position `63 + 7 = 70` lies past the
right edge and the claim says the pixel is dropped.  The code instead
toggles flat index `70 = 1 * 64 + 6`: a pixel on grid row 1 — a
different row than the pixel's own sprite row — turns on. -/
theorem C3_counterexample :
    (Display.draw (fun _ => false) [0x01] 63 0).1 70 = true ∧
    70 / 64 = 1 := by
  exact ⟨by decide, by norm_num⟩

/-- C3 amended: the anchor is `(x mod 64, y mod 32)`, computed once;
a sprite pixel is dropped exactly when its flat index
`(y_wrapped + row) * 64 + x_wrapped + col` reaches past the 2048-pixel
buffer; a set sprite bit whose flat index stays in range always
toggles that flat index — pixels past the right edge therefore spill
onto the following grid row instead of being dropped. -/
theorem C3_clipping_by_flat_index (buf : Nat → Bool) (sprite : List Nat)
    (x y j : Nat) :
    (Display.draw buf sprite x y).1 j =
      (if j ∈ drawMask sprite x y then !buf j else buf j) ∧
    (j ∈ drawMask sprite x y ↔
      ∃ row b col, sprite.get? row = some b ∧ col < 8 ∧
        0 < pixelVal b col ∧ j = pixelIdx (x % 64) (y % 32) row col ∧
        j < 2048) := by
  constructor
  · rw [draw_eq_mask]
    exact applyTF_fst_nodup _ _ _ _ (maskFrom_nodup (x % 64) (y % 32) sprite 0)
  · exact mem_drawMask
